import Mathlib

/-!
# Verification of dms-save-purchase: ledger contract and sync scheduler

Shallow embedding of the two core source files:

* `src/packages/contracts/contracts/StorePurchase.sol` — the append-only
  ledger contract (`add`, `addGenesis`, `getByHeight`, `getLastHeight`).
  Solidity `uint64` heights and `bytes32` hashes are modelled as `Nat`
  (all reachable values stay far below `2^64`, and every arithmetic
  operation performed by the contract on them — `lastHeight + 1`,
  `_height - 1` guarded by `_height != 0` — agrees with `Nat` arithmetic
  on the representable range; Solidity 0.8 reverts on overflow exactly
  where the `Nat` model would leave the `uint64` range).
  A `revert`/failed `require` rolls back all state changes, so a call is
  modelled as `Except String LedgerState`: an `.error code` result carries
  no state, which is precisely Solidity's atomic accept-or-reject.

* `src/packages/server/src/service/scheduler/SendBlock.ts` — the
  scheduler's `work` routine. Its collaborators that are not part of the
  repository snapshot (`StorePurchaseStorage`, ethers' `NonceManager`)
  are modelled from the spec, marked `Modelled from the spec:` on each
  definition. External failure of a network / database call is injected
  through a `Faults` record; a raised fault propagates to the nearest
  enclosing `try/catch` exactly as in the source.
-/

set_option maxHeartbeats 1000000

namespace StorePurchase

/-- A block header, `struct BlockHeader` of `StorePurchaseStorage.sol`
(the struct's fields are fixed by their use in `StorePurchase.sol`):
`height : uint64`, `curBlock prevBlock merkleRoot : bytes32`,
`timestamp : uint64`, `CID : string`. -/
structure BlockHeader where
  height : Nat
  curBlock : Nat
  prevBlock : Nat
  merkleRoot : Nat
  timestamp : Nat
  CID : String
  deriving Repr, DecidableEq

/-- Contract storage: `blockArray : BlockHeader[]`,
`blockMap : mapping(bytes32 => BlockHeight)` (modelled as an association
list, presence of a key = `exists` flag set), `lastHeight : uint64`,
plus the `Ownable` owner address. -/
structure LedgerState where
  blockArray : List BlockHeader
  blockMap : List (Nat × Nat)
  lastHeight : Nat
  owner : Nat
  deriving Repr, DecidableEq

/-- The genesis header pushed by `addGenesis`:
height 0, all-zero hashes, timestamp 0, CID "GENESIS". -/
def genesisHeader : BlockHeader :=
  { height := 0, curBlock := 0, prevBlock := 0, merkleRoot := 0,
    timestamp := 0, CID := "GENESIS" }

/-- `StorePurchase.addGenesis` (internal): pushes the genesis header,
records it in `blockMap`, sets `lastHeight := 0`. -/
def addGenesis (s : LedgerState) : LedgerState :=
  { s with
    blockArray := s.blockArray ++ [genesisHeader]
    blockMap := (genesisHeader.curBlock, genesisHeader.height) :: s.blockMap
    lastHeight := 0 }

/-- `StorePurchase.initialize`: runs on the default (empty) contract
storage and calls `addGenesis`.  The proxy-initializer and ownable
machinery only fixes `owner`. -/
def initContract (owner : Nat) : LedgerState :=
  addGenesis { blockArray := [], blockMap := [], lastHeight := 0, owner := owner }

/-- `StorePurchase.add` (external, `onlyOwner`).  Checks, in source
order: the `onlyOwner` modifier; `require(lastHeight + 1 == _height, "3001")`;
`if (_height != 0 && _prevBlock != (blockArray[_height - 1]).curBlock)
revert("3002")` (short-circuit `&&`, and an out-of-bounds array read is a
Solidity panic, modelled as error "panic"); then pushes the header,
records it in `blockMap` and sets `lastHeight := _height`. -/
def add (s : LedgerState) (sender : Nat) (h c p m t : Nat) (cid : String) :
    Except String LedgerState :=
  if sender ≠ s.owner then .error "onlyOwner"
  else if s.lastHeight + 1 ≠ h then .error "3001"
  else
    let push : LedgerState :=
      { s with
        blockArray := s.blockArray ++
          [{ height := h, curBlock := c, prevBlock := p,
             merkleRoot := m, timestamp := t, CID := cid }]
        blockMap := (c, h) :: s.blockMap
        lastHeight := h }
    if h ≠ 0 then
      match s.blockArray[h - 1]? with
      | none => .error "panic"
      | some hdr => if p ≠ hdr.curBlock then .error "3002" else .ok push
    else .ok push

/-- `StorePurchase.getByHeight`: `require(_height <= lastHeight, "3003")`,
then returns `blockArray[_height]` (out-of-bounds would be a panic). -/
def getByHeight (s : LedgerState) (h : Nat) : Except String BlockHeader :=
  if s.lastHeight < h then .error "3003"
  else
    match s.blockArray[h]? with
    | none => .error "panic"
    | some hdr => .ok hdr

/-- `StorePurchase.getLastHeight`. -/
def getLastHeight (s : LedgerState) : Nat :=
  s.lastHeight

/-- The contract's structural invariant: the array holds exactly the
heights `0 .. lastHeight`, and the entry at index `i` has height `i`. -/
def WellFormed (s : LedgerState) : Prop :=
  s.blockArray.length = s.lastHeight + 1 ∧
    ∀ (i : Nat) (hdr : BlockHeader), s.blockArray[i]? = some hdr → hdr.height = i

/-- One successful `add` call, as a step relation on ledger states. -/
def addStep (s s' : LedgerState) : Prop :=
  ∃ sender h c p m t cid, add s sender h c p m t cid = .ok s'

end StorePurchase

namespace SendBlock

open StorePurchase

/-- The slice of `Config` read by `SendBlock.work`:
`config.node.send_interval` (the period length, seconds) and the address
of the manager signer derived from `config.contracts.managerKey`. -/
structure SBConfig where
  send_interval : Nat
  sender : Nat
  deriving Repr, DecidableEq

/-- External nondeterminism of one period: which of the network /
database calls made by `work` throws.  A raised fault propagates to the
nearest enclosing `try`/`catch`, as in the source. -/
structure Faults where
  getLastHeightFails : Bool
  selectLastHeightFails : Bool
  selectBlockFails : Bool
  addNetworkFails : Bool
  getTxCountFails : Bool
  deleteFails : Bool
  deriving Repr, DecidableEq

/-- The scheduler's own mutable fields: `old_time_stamp` (the poll
cursor) and the `NonceManager`'s locally tracked transaction count
(the writer credential's sequence counter). -/
structure SchedulerState where
  old_time_stamp : Nat
  nonce : Nat
  deriving Repr, DecidableEq

/-- Everything outside the scheduler process: the ledger contract's
storage, the Header Store database rows, and the network's authoritative
outstanding-transaction count for the writer credential. -/
structure World where
  ledger : LedgerState
  db : List BlockHeader
  txCount : Nat
  deriving Repr, DecidableEq

/-- Observable log of one `work` invocation: whether the period-equality
guard was passed (`active`), the height handed to each `add` call made
(`attempted`; `work` contains a single `add` call site, so at most one
height is ever recorded per period), the height whose `add` succeeded
(`submitted`), the height bound passed to a completed
`deleteBlockByHeight` call (`prunedUpTo`), and whether the outer
`catch` handler ran (`caught`). -/
structure Outcome where
  active : Bool
  attempted : Option Nat
  submitted : Option Nat
  prunedUpTo : Option Nat
  caught : Bool
  deriving Repr, DecidableEq

/-- The empty log (a period stopped by the period-equality guard). -/
def noLog : Outcome :=
  { active := false, attempted := none, submitted := none,
    prunedUpTo := none, caught := false }

/-- Modelled from the spec: `StorePurchaseStorage.selectLastHeight`
(class not in the snapshot) — "get highest stored height", `none` when
the store is empty. -/
def selectLastHeight (db : List BlockHeader) : Option Nat :=
  (db.map (·.height)).max?

/-- Modelled from the spec: `StorePurchaseStorage.selectBlockByHeight`
(class not in the snapshot) — "get header by height", `none` when no row
has that height. -/
def selectBlockByHeight (db : List BlockHeader) (h : Nat) : Option BlockHeader :=
  db.find? (fun b => b.height == h)

/-- Modelled from the spec: `StorePurchaseStorage.deleteBlockByHeight`
(class not in the snapshot) — "delete headers up to height": removes all
entries with height ≤ the given value. -/
def deleteBlockByHeight (db : List BlockHeader) (h : Nat) : List BlockHeader :=
  db.filter (fun b => decide (h < b.height))

/-- Result of one `work` invocation: either `process.exit(1)` was
reached (a dependency getter found its field unset — `exit` bypasses
`try`/`catch` and kills the hosting process), or the invocation returned
normally with the scheduler fields, the world, and the log. -/
inductive WorkResult where
  | exited : WorkResult
  | finished (st : SchedulerState) (w : World) (log : Outcome) : WorkResult
  deriving Repr, DecidableEq

/-- Lines 165–166 of `SendBlock.ts`: `await
this.storage.deleteBlockByHeight(last_height)`.  A fault here is caught
by the outer `catch` (the world keeps whatever the period already did;
the delete itself has no partial effect). -/
def pruneStep (f : Faults) (st : SchedulerState) (w : World)
    (last_height : Nat) (attempted submitted : Option Nat) : WorkResult :=
  if f.deleteFails then
    .finished st w
      { active := true, attempted := attempted, submitted := submitted,
        prunedUpTo := none, caught := true }
  else
    .finished st { w with db := deleteBlockByHeight w.db last_height }
      { active := true, attempted := attempted, submitted := submitted,
        prunedUpTo := some last_height, caught := false }

/-- Lines 157–160 of `SendBlock.ts`, the inner `catch`:
`signer.setTransactionCount(await signer.getTransactionCount())`.
Modelled from the spec for `NonceManager` (library code not in the
snapshot): re-read the authoritative outstanding-transaction count from
the network and overwrite the local counter.  If the network read itself
throws, the exception escapes the inner `catch` to the outer one and
the pruning line never runs. -/
def resyncThenPrune (f : Faults) (st : SchedulerState) (w : World)
    (last_height : Nat) (attempted : Option Nat) : WorkResult :=
  if f.getTxCountFails then
    .finished st w
      { active := true, attempted := attempted, submitted := none,
        prunedUpTo := none, caught := true }
  else
    pruneStep f { st with nonce := w.txCount } w last_height attempted none

/-- Lines 149–166 of `SendBlock.ts`: the submission step (`if (data)`
with its inner `try`/`catch`) followed by the unconditional pruning
line.  `st` already carries the updated cursor.  On a successful `add`
the contract state advances and one nonce is consumed (the
`NonceManager` increments its counter, the network's count grows by
one); on any failure the inner `catch` resynchronizes the counter. -/
def afterFetch (cfg : SBConfig) (f : Faults) (st : SchedulerState) (w : World)
    (last_height : Nat) (data : Option BlockHeader) : WorkResult :=
  match data with
  | some d =>
    if f.addNetworkFails then
      resyncThenPrune f st w last_height (some d.height)
    else
      match StorePurchase.add w.ledger cfg.sender d.height d.curBlock
          d.prevBlock d.merkleRoot d.timestamp d.CID with
      | .ok ledger2 =>
        pruneStep f { st with nonce := st.nonce + 1 }
          { w with ledger := ledger2, txCount := w.txCount + 1 }
          last_height (some d.height) (some d.height)
      | .error _ =>
        resyncThenPrune f st w last_height (some d.height)
  | none => pruneStep f st w last_height none none

/-- `SendBlock.work` (lines 114–170).  In source order: compute the two
period numbers from `old_time_stamp`, `now` and
`config.node.send_interval` (the `config` getter calls
`process.exit(1)` when `_config` is unset); return if equal; update the
cursor; read `getLastHeight()` from the contract; read
`selectLastHeight()` from storage (the `storage` getter calls
`process.exit(1)` when `_storage` is unset); return if the store is
empty; fetch the header at `last_height + 1` when the store is ahead;
submit and prune via `afterFetch`.  Any fault inside the `try` lands in
the outer `catch`, which only logs. -/
def work (cfgOpt : Option SBConfig) (hasStorage : Bool) (f : Faults)
    (now : Nat) (st : SchedulerState) (w : World) : WorkResult :=
  match cfgOpt with
  | none => .exited
  | some cfg =>
    if st.old_time_stamp / cfg.send_interval = now / cfg.send_interval then
      .finished st w noLog
    else
      let st1 : SchedulerState := { st with old_time_stamp := now }
      if f.getLastHeightFails then
        .finished st1 w
          { active := true, attempted := none, submitted := none,
            prunedUpTo := none, caught := true }
      else
        let last_height := getLastHeight w.ledger
        if hasStorage = false then .exited
        else if f.selectLastHeightFails then
          .finished st1 w
            { active := true, attempted := none, submitted := none,
              prunedUpTo := none, caught := true }
        else
          match selectLastHeight w.db with
          | none =>
            .finished st1 w
              { active := true, attempted := none, submitted := none,
                prunedUpTo := none, caught := false }
          | some db_last_height =>
            if last_height < db_last_height ∧ f.selectBlockFails then
              .finished st1 w
                { active := true, attempted := none, submitted := none,
                  prunedUpTo := none, caught := true }
            else
              let data : Option BlockHeader :=
                if last_height < db_last_height then
                  selectBlockByHeight w.db (last_height + 1)
                else none
              afterFetch cfg f st1 w last_height data

/-- Input of one trigger tick in a run: the wall-clock time, the faults
of the period, and the headers the upstream block-producing process
appended to the Header Store since the previous tick. -/
structure PeriodInput where
  now : Nat
  faults : Faults
  newHeaders : List BlockHeader
  deriving Repr, DecidableEq

/-- Result of a run: final scheduler fields, final world, and the
heights successfully submitted to the ledger, in order. -/
structure RunResult where
  st : SchedulerState
  w : World
  submitted : List Nat
  deriving Repr, DecidableEq

/-- A run of the scheduler: one `work` invocation per trigger tick, the
upstream producer extending the store between ticks.  (`work` never
returns `exited` when config and storage are wired — that is proved
below — so the `exited` arm is dead.) -/
def run (cfg : SBConfig) (st : SchedulerState) (w : World) :
    List PeriodInput → RunResult
  | [] => { st := st, w := w, submitted := [] }
  | i :: rest =>
    let w1 : World := { w with db := w.db ++ i.newHeaders }
    match work (some cfg) true i.faults i.now st w1 with
    | .exited => { st := st, w := w1, submitted := [] }
    | .finished st2 w2 log =>
      let r := run cfg st2 w2 rest
      { r with submitted := log.submitted.toList ++ r.submitted }

/-- Example configuration: ten-second interval, writer address 7. -/
def exCfg : SBConfig := { send_interval := 10, sender := 7 }

/-- Example fault vector: every external call succeeds. -/
def exNoFaults : Faults :=
  { getLastHeightFails := false, selectLastHeightFails := false,
    selectBlockFails := false, addNetworkFails := false,
    getTxCountFails := false, deleteFails := false }

/-- Example fault vector: only the `add` network call throws. -/
def exAddFailFaults : Faults := { exNoFaults with addNetworkFails := true }

/-- Example header at height 1 chained onto genesis. -/
def exHeader1 : BlockHeader :=
  { height := 1, curBlock := 11, prevBlock := 0, merkleRoot := 3,
    timestamp := 4, CID := "a" }

/-- Example header at height 2 chained onto `exHeader1`. -/
def exHeader2 : BlockHeader :=
  { height := 2, curBlock := 22, prevBlock := 11, merkleRoot := 3,
    timestamp := 5, CID := "b" }

/-- Example world: fresh ledger owned by 7, two pending headers. -/
def exWorld : World :=
  { ledger := initContract 7, db := [exHeader1, exHeader2], txCount := 5 }

/-- Example world with an empty Header Store. -/
def exEmptyWorld : World :=
  { ledger := initContract 7, db := [], txCount := 5 }

/-- The example ledger after `exHeader1` was accepted. -/
def exLedger1 : LedgerState :=
  { blockArray := [genesisHeader, exHeader1],
    blockMap := [(11, 1), (0, 0)], lastHeight := 1, owner := 7 }

/-- Example world where the ledger already holds the only stored
header. -/
def exCaughtUpWorld : World :=
  { ledger := exLedger1, db := [exHeader1], txCount := 5 }

/-- Example scheduler fields: cursor at 0, stale counter 9. -/
def exState : SchedulerState := { old_time_stamp := 0, nonce := 9 }

/-- Example fault vector: the `add` call throws and the
`getTransactionCount` read inside the `catch` handler throws too. -/
def exResyncFailFaults : Faults :=
  { exNoFaults with addNetworkFails := true, getTxCountFails := true }

/-- Example world mid-retry: the ledger holds height 1, the store still
holds the confirmed header 1 plus the pending header 2. -/
def exRetryWorld : World :=
  { ledger := exLedger1, db := [exHeader1, exHeader2], txCount := 5 }

/-- Example run inputs: two fault-free ticks in distinct periods. -/
def exInputs : List PeriodInput :=
  [⟨15, exNoFaults, []⟩, ⟨25, exNoFaults, []⟩]

end SendBlock

namespace StorePurchase

/-- Anatomy of a successful `add`: the submitted height is exactly
`lastHeight + 1` and the new state is the old one with the new header
appended. -/
theorem add_ok_spec {s : LedgerState} {sender h c p m t : Nat} {cid : String}
    {s' : LedgerState} (hok : add s sender h c p m t cid = .ok s') :
    sender = s.owner ∧ h = s.lastHeight + 1 ∧
      s' = { s with
        blockArray := s.blockArray ++
          [{ height := h, curBlock := c, prevBlock := p,
             merkleRoot := m, timestamp := t, CID := cid }]
        blockMap := (c, h) :: s.blockMap
        lastHeight := h } := by
  unfold add at hok
  split at hok
  · exact absurd hok (by simp)
  · split at hok
    · exact absurd hok (by simp)
    · split at hok
      · split at hok
        · exact absurd hok (by simp)
        · split at hok
          · exact absurd hok (by simp)
          · refine ⟨by omega, by omega, ?_⟩
            simpa using hok.symm
      · refine ⟨by omega, by omega, ?_⟩
        simpa using hok.symm

/-- A successful `add` requires the previous hash to match the entry at
index `h - 1`. -/
theorem add_ok_prev {s : LedgerState} {sender h c p m t : Nat} {cid : String}
    {s' : LedgerState} (hok : add s sender h c p m t cid = .ok s') :
    ∃ hdr, s.blockArray[h - 1]? = some hdr ∧ p = hdr.curBlock := by
  unfold add at hok
  split at hok
  · exact absurd hok (by simp)
  · split at hok
    · exact absurd hok (by simp)
    · split at hok
      · split at hok
        · exact absurd hok (by simp)
        · rename_i hdr heq
          split at hok
          · exact absurd hok (by simp)
          · exact ⟨hdr, heq, by omega⟩
      · omega

/-- Conversely: right sender, right height and a matching previous hash
make `add` succeed. -/
theorem add_ok_of (s : LedgerState) (c m t : Nat) (cid : String)
    {h p : Nat} {hdr : BlockHeader}
    (hh : h = s.lastHeight + 1) (hheq : s.blockArray[h - 1]? = some hdr)
    (hp : p = hdr.curBlock) :
    add s s.owner h c p m t cid = .ok
      { s with
        blockArray := s.blockArray ++
          [{ height := h, curBlock := c, prevBlock := p,
             merkleRoot := m, timestamp := t, CID := cid }]
        blockMap := (c, h) :: s.blockMap
        lastHeight := h } := by
  unfold add
  rw [if_neg (by simp), if_neg (by omega), if_pos (by omega), hheq]
  simp [hp]

/-- The genesis ledger is well formed. -/
theorem wf_init (owner : Nat) : WellFormed (initContract owner) := by
  refine ⟨rfl, ?_⟩
  intro i hdr hi
  match i with
  | 0 => simp [initContract, addGenesis, genesisHeader] at hi ⊢; simp [← hi]
  | n + 1 => simp [initContract, addGenesis] at hi

/-- `add` preserves well-formedness. -/
theorem wf_add {s : LedgerState} {sender h c p m t : Nat} {cid : String}
    {s' : LedgerState} (hwf : WellFormed s)
    (hok : add s sender h c p m t cid = .ok s') : WellFormed s' := by
  obtain ⟨-, hh, hs'⟩ := add_ok_spec hok
  obtain ⟨hlen, hidx⟩ := hwf
  subst hs'
  refine ⟨by simp [hlen, hh], ?_⟩
  intro i hdr hi
  by_cases hlt : i < s.blockArray.length
  · rw [List.getElem?_append_left hlt] at hi
    exact hidx i hdr hi
  · have hbound : i < s.blockArray.length + 1 := by
      have := (List.getElem?_eq_some_iff.mp hi).1
      simpa using this
    have hi' : i = s.blockArray.length := by omega
    subst hi'
    rw [List.getElem?_append_right (by omega)] at hi
    simp at hi
    simp [← hi, hh, hlen]

/-- In a well-formed ledger every height up to `lastHeight` resolves via
`getByHeight` to a header carrying that height. -/
theorem getByHeight_wf {s : LedgerState} (hwf : WellFormed s) {h : Nat}
    (hle : h ≤ s.lastHeight) :
    ∃ hdr, getByHeight s h = .ok hdr ∧ hdr.height = h := by
  obtain ⟨hlen, hidx⟩ := hwf
  have hlt : h < s.blockArray.length := by omega
  obtain ⟨hdr, hhdr⟩ : ∃ hdr, s.blockArray[h]? = some hdr :=
    ⟨s.blockArray[h], (List.getElem?_eq_getElem hlt)⟩
  refine ⟨hdr, ?_, hidx h hdr hhdr⟩
  unfold getByHeight
  rw [if_neg (by omega), hhdr]

/-- C4: on a well-formed ledger with tip entry `tip`, an `add` call by
the owner succeeds if and only if the submitted height is exactly
`lastHeight + 1` and the submitted previous hash equals the `curBlock`
of the stored entry at `height - 1` (the tip); a wrong height rejects
with code "3001" (height mismatch) and a right height with a wrong
previous hash rejects with code "3002" (chain mismatch).  Rejection is
an `.error` result of the `Except`-modelled call: it carries no
successor state, which is the atomic accept-or-reject (rollback)
semantics of a Solidity revert. -/
theorem C4_add_success_iff (s : LedgerState) (sender h c p m t : Nat)
    (cid : String) (tip : BlockHeader)
    (hown : sender = s.owner)
    (htip : s.blockArray[s.lastHeight]? = some tip) :
    ((∃ s', add s sender h c p m t cid = .ok s') ↔
      (h = s.lastHeight + 1 ∧ p = tip.curBlock)) ∧
    (h ≠ s.lastHeight + 1 → add s sender h c p m t cid = .error "3001") ∧
    (h = s.lastHeight + 1 → p ≠ tip.curBlock →
      add s sender h c p m t cid = .error "3002") := by
  subst hown
  refine ⟨⟨?_, ?_⟩, ?_, ?_⟩
  · rintro ⟨s', hok⟩
    obtain ⟨-, hh, -⟩ := add_ok_spec hok
    obtain ⟨hdr, hheq, hp⟩ := add_ok_prev hok
    rw [hh] at hheq
    simp only [Nat.add_sub_cancel] at hheq
    rw [htip] at hheq
    cases hheq
    exact ⟨hh, hp⟩
  · rintro ⟨hh, hp⟩
    refine ⟨_, add_ok_of s c m t cid hh ?_ hp⟩
    rw [hh]
    simpa using htip
  · intro hne
    unfold add
    rw [if_neg (by simp), if_pos (by omega)]
  · intro hh hp
    unfold add
    rw [if_neg (by simp), if_neg (by omega), if_pos (by omega)]
    have : s.blockArray[h - 1]? = some tip := by rw [hh]; simpa using htip
    rw [this]
    simp [hp]

/-- C4 witness: concrete instance on the freshly initialized ledger. -/
theorem C4_add_success_iff_witness :
    (((∃ s', StorePurchase.add (initContract 9) 9 1 11 0 3 4 "a" = .ok s') ↔
      (1 = (initContract 9).lastHeight + 1 ∧ 0 = genesisHeader.curBlock)) ∧
    (1 ≠ (initContract 9).lastHeight + 1 →
      StorePurchase.add (initContract 9) 9 1 11 0 3 4 "a" = .error "3001") ∧
    (1 = (initContract 9).lastHeight + 1 → 0 ≠ genesisHeader.curBlock →
      StorePurchase.add (initContract 9) 9 1 11 0 3 4 "a" = .error "3002")) :=
  C4_add_success_iff (initContract 9) 9 1 11 0 3 4 "a" genesisHeader
    rfl (by decide)

/-- C5: the ledger is monotonically append-only.  A successful `add`
raises `lastHeight` by exactly one, appends exactly one entry, and
leaves every previously stored entry unchanged; and across any chain of
successful `add` calls, an entry once stored at an index is never
reassigned. -/
theorem C5_append_only (s : LedgerState) (sender h c p m t : Nat)
    (cid : String) (s' : LedgerState)
    (hok : add s sender h c p m t cid = .ok s') :
    s'.lastHeight = s.lastHeight + 1 ∧
    s'.blockArray.length = s.blockArray.length + 1 ∧
    (∀ i, i < s.blockArray.length → s'.blockArray[i]? = s.blockArray[i]?) ∧
    (∀ s₀ s₁ : LedgerState, Relation.ReflTransGen addStep s₀ s₁ →
      ∀ (i : Nat) (hdr : BlockHeader),
        s₀.blockArray[i]? = some hdr → s₁.blockArray[i]? = some hdr) := by
  obtain ⟨-, hh, hs'⟩ := add_ok_spec hok
  subst hs'
  refine ⟨by simp [hh], by simp, ?_, ?_⟩
  · intro i hi
    simp [List.getElem?_append_left hi]
  · intro s₀ s₁ hsteps
    induction hsteps with
    | refl => intro i hdr hi; exact hi
    | tail _ hstep ih =>
      intro i hdr hi
      obtain ⟨sender', h', c', p', m', t', cid', hok'⟩ := hstep
      obtain ⟨-, -, hs₁⟩ := add_ok_spec hok'
      subst hs₁
      have hi' := ih i hdr hi
      have hlt := (List.getElem?_eq_some_iff.mp hi').1
      simp only [List.getElem?_append_left hlt]
      exact hi'

/-- C5 witness: a concrete successful `add` on the genesis ledger. -/
theorem C5_append_only_witness :
    (initContract 9).lastHeight + 1 = 1 ∧
    ((StorePurchase.add (initContract 9) 9 1 11 0 3 4 "a" = .ok
        { blockArray := [genesisHeader,
            { height := 1, curBlock := 11, prevBlock := 0, merkleRoot := 3,
              timestamp := 4, CID := "a" }],
          blockMap := [(11, 1), (0, 0)], lastHeight := 1, owner := 9 }) ∧
      ({ blockArray := [genesisHeader,
            { height := 1, curBlock := 11, prevBlock := 0, merkleRoot := 3,
              timestamp := 4, CID := "a" }],
          blockMap := [(11, 1), (0, 0)], lastHeight := 1,
          owner := 9 } : LedgerState).lastHeight =
        (initContract 9).lastHeight + 1) :=
  ⟨by decide, by rfl,
    (C5_append_only (initContract 9) 9 1 11 0 3 4 "a" _ (by rfl)).1⟩

/-- C10: the contract invariant `blockArray.length = lastHeight + 1`
with `blockArray[i].height = i` holds after `initialize` and is
preserved by every successful `add`; consequently `getByHeight h`, for
`h ≤ lastHeight`, returns the stored header whose `height` field is
`h`. -/
theorem C10_wellformed :
    (∀ owner, WellFormed (initContract owner)) ∧
    (∀ (s : LedgerState) (sender h c p m t : Nat) (cid : String)
        (s' : LedgerState), WellFormed s →
        add s sender h c p m t cid = .ok s' → WellFormed s') ∧
    (∀ (s : LedgerState) (h : Nat), WellFormed s → h ≤ s.lastHeight →
      ∃ hdr, getByHeight s h = .ok hdr ∧ hdr.height = h) :=
  ⟨wf_init,
   fun _ _ _ _ _ _ _ _ _ hwf hok => wf_add hwf hok,
   fun _ _ hwf hle => getByHeight_wf hwf hle⟩

/-- C10 witness: the invariant consequence evaluated on the genesis
ledger. -/
theorem C10_wellformed_witness :
    WellFormed (initContract 9) ∧
    (∃ hdr, getByHeight (initContract 9) 0 = .ok hdr ∧ hdr.height = 0) :=
  ⟨C10_wellformed.1 9,
   C10_wellformed.2.2 (initContract 9) 0 (C10_wellformed.1 9) (by decide)⟩

end StorePurchase

namespace SendBlock

open StorePurchase

/-- Inversion of `pruneStep`. -/
theorem pruneStep_out {f : Faults} {st : SchedulerState} {w : World}
    {lh : Nat} {a sm : Option Nat} {st' : SchedulerState} {w' : World}
    {log : Outcome}
    (h : pruneStep f st w lh a sm = .finished st' w' log) :
    st' = st ∧
    ((f.deleteFails = false ∧ w' = { w with db := deleteBlockByHeight w.db lh } ∧
        log = ⟨true, a, sm, some lh, false⟩) ∨
      (f.deleteFails = true ∧ w' = w ∧ log = ⟨true, a, sm, none, true⟩)) := by
  unfold pruneStep at h
  split at h
  · injection h with h1 h2 h3
    exact ⟨h1.symm, Or.inr ⟨by assumption, h2.symm, h3.symm⟩⟩
  · injection h with h1 h2 h3
    exact ⟨h1.symm, Or.inl ⟨by simpa using ‹¬ f.deleteFails = true›, h2.symm, h3.symm⟩⟩

/-- Inversion of `resyncThenPrune`. -/
theorem resyncThenPrune_out {f : Faults} {st : SchedulerState} {w : World}
    {lh : Nat} {a : Option Nat} {st' : SchedulerState} {w' : World}
    {log : Outcome}
    (h : resyncThenPrune f st w lh a = .finished st' w' log) :
    (f.getTxCountFails = true ∧ st' = st ∧ w' = w ∧
        log = ⟨true, a, none, none, true⟩) ∨
    (f.getTxCountFails = false ∧ st' = { st with nonce := w.txCount } ∧
      ((f.deleteFails = false ∧
          w' = { w with db := deleteBlockByHeight w.db lh } ∧
          log = ⟨true, a, none, some lh, false⟩) ∨
        (f.deleteFails = true ∧ w' = w ∧ log = ⟨true, a, none, none, true⟩))) := by
  unfold resyncThenPrune at h
  split at h
  · injection h with h1 h2 h3
    exact Or.inl ⟨by assumption, h1.symm, h2.symm, h3.symm⟩
  · obtain ⟨h1, h2⟩ := pruneStep_out h
    exact Or.inr ⟨by simpa using ‹¬ f.getTxCountFails = true›, h1, h2⟩

/-- Inversion of `afterFetch`: the submission step either skips (`data`
empty), fails over the network, succeeds on the contract, or is
rejected by the contract; each case continues into the pruning line. -/
theorem afterFetch_out {cfg : SBConfig} {f : Faults} {st : SchedulerState}
    {w : World} {lh : Nat} {data : Option BlockHeader}
    {st' : SchedulerState} {w' : World} {log : Outcome}
    (h : afterFetch cfg f st w lh data = .finished st' w' log) :
    (data = none ∧ pruneStep f st w lh none none = .finished st' w' log) ∨
    (∃ d, data = some d ∧ f.addNetworkFails = true ∧
      resyncThenPrune f st w lh (some d.height) = .finished st' w' log) ∨
    (∃ d ledger2, data = some d ∧ f.addNetworkFails = false ∧
      StorePurchase.add w.ledger cfg.sender d.height d.curBlock d.prevBlock
          d.merkleRoot d.timestamp d.CID = .ok ledger2 ∧
      pruneStep f { st with nonce := st.nonce + 1 }
          { w with ledger := ledger2, txCount := w.txCount + 1 }
          lh (some d.height) (some d.height) = .finished st' w' log) ∨
    (∃ d e, data = some d ∧ f.addNetworkFails = false ∧
      StorePurchase.add w.ledger cfg.sender d.height d.curBlock d.prevBlock
          d.merkleRoot d.timestamp d.CID = .error e ∧
      resyncThenPrune f st w lh (some d.height) = .finished st' w' log) := by
  rcases data with _ | d
  · simp only [afterFetch] at h
    exact Or.inl ⟨rfl, h⟩
  · simp only [afterFetch] at h
    split at h
    · exact Or.inr (Or.inl ⟨d, rfl, by assumption, h⟩)
    · rename_i hnf
      split at h
      · rename_i ledger2 hadd
        exact Or.inr (Or.inr (Or.inl ⟨d, ledger2, rfl, by simpa using hnf, hadd, h⟩))
      · rename_i e hadd
        exact Or.inr (Or.inr (Or.inr ⟨d, e, rfl, by simpa using hnf, hadd, h⟩))

/-- Inversion of `work` with config and storage wired: either the
period-equality guard stopped the invocation unchanged, or the cursor
was updated and the period ran up to one of its exit points. -/
theorem work_out {cfg : SBConfig} {f : Faults} {now : Nat}
    {st st' : SchedulerState} {w w' : World} {log : Outcome}
    (h : work (some cfg) true f now st w = .finished st' w' log) :
    (st.old_time_stamp / cfg.send_interval = now / cfg.send_interval ∧
      st' = st ∧ w' = w ∧ log = noLog) ∨
    (st.old_time_stamp / cfg.send_interval ≠ now / cfg.send_interval ∧
      ((f.getLastHeightFails = true ∧
          st' = { st with old_time_stamp := now } ∧ w' = w ∧
          log = ⟨true, none, none, none, true⟩) ∨
        (f.getLastHeightFails = false ∧ f.selectLastHeightFails = true ∧
          st' = { st with old_time_stamp := now } ∧ w' = w ∧
          log = ⟨true, none, none, none, true⟩) ∨
        (f.getLastHeightFails = false ∧ f.selectLastHeightFails = false ∧
          selectLastHeight w.db = none ∧
          st' = { st with old_time_stamp := now } ∧ w' = w ∧
          log = ⟨true, none, none, none, false⟩) ∨
        (∃ dbh, f.getLastHeightFails = false ∧ f.selectLastHeightFails = false ∧
          selectLastHeight w.db = some dbh ∧
          ((getLastHeight w.ledger < dbh ∧ f.selectBlockFails = true ∧
              st' = { st with old_time_stamp := now } ∧ w' = w ∧
              log = ⟨true, none, none, none, true⟩) ∨
            (¬(getLastHeight w.ledger < dbh ∧ f.selectBlockFails = true) ∧
              afterFetch cfg f { st with old_time_stamp := now } w
                  (getLastHeight w.ledger)
                  (if getLastHeight w.ledger < dbh then
                    selectBlockByHeight w.db (getLastHeight w.ledger + 1)
                  else none) = .finished st' w' log))))) := by
  simp only [work] at h
  split at h
  · injection h with h1 h2 h3
    exact Or.inl ⟨by assumption, h1.symm, h2.symm, h3.symm⟩
  · refine Or.inr ⟨by assumption, ?_⟩
    split at h
    · injection h with h1 h2 h3
      exact Or.inl ⟨by assumption, h1.symm, h2.symm, h3.symm⟩
    · rename_i hglh
      split at h
      · exact absurd ‹(true = false)› (by simp)
      · split at h
        · injection h with h1 h2 h3
          exact Or.inr (Or.inl
            ⟨by simpa using hglh, by assumption, h1.symm, h2.symm, h3.symm⟩)
        · rename_i hslh
          split at h
          · rename_i hsel
            injection h with h1 h2 h3
            exact Or.inr (Or.inr (Or.inl
              ⟨by simpa using hglh, by simpa using hslh, hsel,
                h1.symm, h2.symm, h3.symm⟩))
          · rename_i dbh hsel
            refine Or.inr (Or.inr (Or.inr
              ⟨dbh, by simpa using hglh, by simpa using hslh, hsel, ?_⟩))
            split at h
            · injection h with h1 h2 h3
              exact Or.inl ⟨by tauto, by tauto, h1.symm, h2.symm, h3.symm⟩
            · exact Or.inr ⟨by assumption, h⟩

/-- `pruneStep` always returns normally. -/
theorem pruneStep_total (f : Faults) (st : SchedulerState) (w : World)
    (lh : Nat) (a sm : Option Nat) :
    ∃ st' w' log, pruneStep f st w lh a sm = .finished st' w' log := by
  unfold pruneStep
  split
  · exact ⟨_, _, _, rfl⟩
  · exact ⟨_, _, _, rfl⟩

/-- `resyncThenPrune` always returns normally. -/
theorem resyncThenPrune_total (f : Faults) (st : SchedulerState) (w : World)
    (lh : Nat) (a : Option Nat) :
    ∃ st' w' log, resyncThenPrune f st w lh a = .finished st' w' log := by
  unfold resyncThenPrune
  split
  · exact ⟨_, _, _, rfl⟩
  · exact pruneStep_total ..

/-- `afterFetch` always returns normally. -/
theorem afterFetch_total (cfg : SBConfig) (f : Faults) (st : SchedulerState)
    (w : World) (lh : Nat) (data : Option BlockHeader) :
    ∃ st' w' log, afterFetch cfg f st w lh data = .finished st' w' log := by
  rcases data with _ | d
  · simp only [afterFetch]
    exact pruneStep_total ..
  · simp only [afterFetch]
    split
    · exact resyncThenPrune_total ..
    · split
      · exact pruneStep_total ..
      · exact resyncThenPrune_total ..

/-- With config and storage wired, `work` never reaches
`process.exit`. -/
theorem work_ne_exited (cfg : SBConfig) (f : Faults) (now : Nat)
    (st : SchedulerState) (w : World) :
    work (some cfg) true f now st w ≠ .exited := by
  intro h
  simp only [work] at h
  split at h
  · exact WorkResult.noConfusion h
  · split at h
    · exact WorkResult.noConfusion h
    · split at h
      · exact absurd ‹(true = false)› (by simp)
      · split at h
        · exact WorkResult.noConfusion h
        · split at h
          · exact WorkResult.noConfusion h
          · split at h
            · exact WorkResult.noConfusion h
            · obtain ⟨st', w', log, heq⟩ := afterFetch_total ..
              rw [heq] at h
              exact WorkResult.noConfusion h

/-- `afterFetch` never touches the poll cursor and always reports an
active period. -/
theorem afterFetch_old_active {cfg : SBConfig} {f : Faults}
    {st st' : SchedulerState} {w w' : World} {lh : Nat}
    {data : Option BlockHeader} {log : Outcome}
    (h : afterFetch cfg f st w lh data = .finished st' w' log) :
    st'.old_time_stamp = st.old_time_stamp ∧ log.active = true := by
  rcases afterFetch_out h with ⟨-, hp⟩ | ⟨d, -, -, hp⟩ |
      ⟨d, ledger2, -, -, -, hp⟩ | ⟨d, e, -, -, -, hp⟩
  · obtain ⟨hst, hrest⟩ := pruneStep_out hp
    rcases hrest with ⟨-, -, hlog⟩ | ⟨-, -, hlog⟩ <;> simp [hst, hlog]
  · rcases resyncThenPrune_out hp with ⟨-, hst, -, hlog⟩ |
        ⟨-, hst, ⟨-, -, hlog⟩ | ⟨-, -, hlog⟩⟩ <;> simp [hst, hlog]
  · obtain ⟨hst, hrest⟩ := pruneStep_out hp
    rcases hrest with ⟨-, -, hlog⟩ | ⟨-, -, hlog⟩ <;> simp [hst, hlog]
  · rcases resyncThenPrune_out hp with ⟨-, hst, -, hlog⟩ |
        ⟨-, hst, ⟨-, -, hlog⟩ | ⟨-, -, hlog⟩⟩ <;> simp [hst, hlog]

/-- The height handed to the `add` call of a period is exactly the
height of the fetched header, when one was fetched. -/
theorem afterFetch_attempt {cfg : SBConfig} {f : Faults}
    {st st' : SchedulerState} {w w' : World} {lh : Nat}
    {data : Option BlockHeader} {log : Outcome}
    (h : afterFetch cfg f st w lh data = .finished st' w' log) :
    log.attempted = Option.map (fun d => d.height) data := by
  rcases afterFetch_out h with ⟨hd, hp⟩ | ⟨d, hd, -, hp⟩ |
      ⟨d, ledger2, hd, -, -, hp⟩ | ⟨d, e, hd, -, -, hp⟩ <;> subst hd
  · obtain ⟨-, hrest⟩ := pruneStep_out hp
    rcases hrest with ⟨-, -, hlog⟩ | ⟨-, -, hlog⟩ <;> simp [hlog]
  · rcases resyncThenPrune_out hp with ⟨-, -, -, hlog⟩ |
        ⟨-, -, ⟨-, -, hlog⟩ | ⟨-, -, hlog⟩⟩ <;> simp [hlog]
  · obtain ⟨-, hrest⟩ := pruneStep_out hp
    rcases hrest with ⟨-, -, hlog⟩ | ⟨-, -, hlog⟩ <;> simp [hlog]
  · rcases resyncThenPrune_out hp with ⟨-, -, -, hlog⟩ |
        ⟨-, -, ⟨-, -, hlog⟩ | ⟨-, -, hlog⟩⟩ <;> simp [hlog]

/-- What the submission step does to the ledger: either nothing was
submitted and the ledger is untouched, or the fetched header was
accepted by the contract. -/
theorem afterFetch_ledger {cfg : SBConfig} {f : Faults}
    {st st' : SchedulerState} {w w' : World} {lh : Nat}
    {data : Option BlockHeader} {log : Outcome}
    (h : afterFetch cfg f st w lh data = .finished st' w' log) :
    (log.submitted = none ∧ w'.ledger = w.ledger) ∨
    (∃ d ledger2, data = some d ∧ log.submitted = some d.height ∧
      StorePurchase.add w.ledger cfg.sender d.height d.curBlock d.prevBlock
        d.merkleRoot d.timestamp d.CID = .ok ledger2 ∧
      w'.ledger = ledger2) := by
  rcases afterFetch_out h with ⟨hd, hp⟩ | ⟨d, hd, -, hp⟩ |
      ⟨d, ledger2, hd, -, hadd, hp⟩ | ⟨d, e, hd, -, -, hp⟩
  · obtain ⟨-, hrest⟩ := pruneStep_out hp
    rcases hrest with ⟨-, hw', hlog⟩ | ⟨-, hw', hlog⟩ <;>
      exact Or.inl ⟨by simp [hlog], by simp [hw']⟩
  · rcases resyncThenPrune_out hp with ⟨-, -, hw', hlog⟩ |
        ⟨-, -, ⟨-, hw', hlog⟩ | ⟨-, hw', hlog⟩⟩ <;>
      exact Or.inl ⟨by simp [hlog], by simp [hw']⟩
  · obtain ⟨-, hrest⟩ := pruneStep_out hp
    rcases hrest with ⟨-, hw', hlog⟩ | ⟨-, hw', hlog⟩ <;>
      exact Or.inr ⟨d, ledger2, hd, by simp [hlog], hadd, by simp [hw']⟩
  · rcases resyncThenPrune_out hp with ⟨-, -, hw', hlog⟩ |
        ⟨-, -, ⟨-, hw', hlog⟩ | ⟨-, hw', hlog⟩⟩ <;>
      exact Or.inl ⟨by simp [hlog], by simp [hw']⟩

/-- When neither the resynchronization read nor the delete call faults,
the pruning line completes whatever the submission step did. -/
theorem afterFetch_prune {cfg : SBConfig} {f : Faults}
    {st st' : SchedulerState} {w w' : World} {lh : Nat}
    {data : Option BlockHeader} {log : Outcome}
    (h : afterFetch cfg f st w lh data = .finished st' w' log)
    (hf4 : f.getTxCountFails = false) (hf5 : f.deleteFails = false) :
    w'.db = deleteBlockByHeight w.db lh ∧ log.prunedUpTo = some lh := by
  rcases afterFetch_out h with ⟨hd, hp⟩ | ⟨d, hd, -, hp⟩ |
      ⟨d, ledger2, hd, -, -, hp⟩ | ⟨d, e, hd, -, -, hp⟩
  · obtain ⟨-, hrest⟩ := pruneStep_out hp
    rcases hrest with ⟨-, hw', hlog⟩ | ⟨hdel, -, -⟩
    · simp [hw', hlog]
    · exact absurd hdel (by simp [hf5])
  · rcases resyncThenPrune_out hp with ⟨htx, -, -, -⟩ |
        ⟨-, -, ⟨-, hw', hlog⟩ | ⟨hdel, -, -⟩⟩
    · exact absurd htx (by simp [hf4])
    · simp [hw', hlog]
    · exact absurd hdel (by simp [hf5])
  · obtain ⟨-, hrest⟩ := pruneStep_out hp
    rcases hrest with ⟨-, hw', hlog⟩ | ⟨hdel, -, -⟩
    · simp [hw', hlog]
    · exact absurd hdel (by simp [hf5])
  · rcases resyncThenPrune_out hp with ⟨htx, -, -, -⟩ |
        ⟨-, -, ⟨-, hw', hlog⟩ | ⟨hdel, -, -⟩⟩
    · exact absurd htx (by simp [hf4])
    · simp [hw', hlog]
    · exact absurd hdel (by simp [hf5])

/-- A period that fetched nothing makes no `add` call, leaves the
ledger and the sequence counter alone, and at most prunes the store. -/
theorem afterFetch_skip {cfg : SBConfig} {f : Faults}
    {st st' : SchedulerState} {w w' : World} {lh : Nat} {log : Outcome}
    (h : afterFetch cfg f st w lh none = .finished st' w' log) :
    log.attempted = none ∧ log.submitted = none ∧
    w'.ledger = w.ledger ∧ w'.txCount = w.txCount ∧
    st'.nonce = st.nonce ∧
    (w'.db = w.db ∨ w'.db = deleteBlockByHeight w.db lh) := by
  rcases afterFetch_out h with ⟨-, hp⟩ | ⟨d, hd, -, -⟩ |
      ⟨d, ledger2, hd, -, -, -⟩ | ⟨d, e, hd, -, -, -⟩
  · obtain ⟨hst, hrest⟩ := pruneStep_out hp
    rcases hrest with ⟨-, hw', hlog⟩ | ⟨-, hw', hlog⟩ <;>
      simp [hst, hw', hlog]
  · exact Option.noConfusion hd
  · exact Option.noConfusion hd
  · exact Option.noConfusion hd

/-- The Header Store after the submission-and-pruning stage: either
untouched (an exception aborted the period before or at the delete
call) or pruned up to the pre-read ledger height. -/
theorem afterFetch_db {cfg : SBConfig} {f : Faults}
    {st st' : SchedulerState} {w w' : World} {lh : Nat}
    {data : Option BlockHeader} {log : Outcome}
    (h : afterFetch cfg f st w lh data = .finished st' w' log) :
    w'.db = w.db ∨ w'.db = deleteBlockByHeight w.db lh := by
  rcases afterFetch_out h with ⟨-, hp⟩ | ⟨d, -, -, hp⟩ |
      ⟨d, ledger2, -, -, -, hp⟩ | ⟨d, e, -, -, -, hp⟩
  · obtain ⟨-, hrest⟩ := pruneStep_out hp
    rcases hrest with ⟨-, hw', -⟩ | ⟨-, hw', -⟩ <;> simp [hw']
  · rcases resyncThenPrune_out hp with ⟨-, -, hw', -⟩ |
        ⟨-, -, ⟨-, hw', -⟩ | ⟨-, hw', -⟩⟩ <;> simp [hw']
  · obtain ⟨-, hrest⟩ := pruneStep_out hp
    rcases hrest with ⟨-, hw', -⟩ | ⟨-, hw', -⟩ <;> simp [hw']
  · rcases resyncThenPrune_out hp with ⟨-, -, hw', -⟩ |
        ⟨-, -, ⟨-, hw', -⟩ | ⟨-, hw', -⟩⟩ <;> simp [hw']

/-- A failed submission resynchronizes the sequence counter from the
network's authoritative count and leaves ledger and count untouched. -/
theorem afterFetch_fail {cfg : SBConfig} {f : Faults}
    {st st' : SchedulerState} {w w' : World} {lh hgt : Nat}
    {data : Option BlockHeader} {log : Outcome}
    (h : afterFetch cfg f st w lh data = .finished st' w' log)
    (ha : log.attempted = some hgt) (hs : log.submitted = none)
    (hf4 : f.getTxCountFails = false) :
    st'.nonce = w.txCount ∧ w'.ledger = w.ledger ∧ w'.txCount = w.txCount ∧
    (∃ d, data = some d ∧ d.height = hgt) := by
  rcases afterFetch_out h with ⟨hd, hp⟩ | ⟨d, hd, -, hp⟩ |
      ⟨d, ledger2, hd, -, -, hp⟩ | ⟨d, e, hd, -, -, hp⟩
  · obtain ⟨-, hrest⟩ := pruneStep_out hp
    rcases hrest with ⟨-, -, hlog⟩ | ⟨-, -, hlog⟩ <;>
      (rw [hlog] at ha; exact Option.noConfusion ha)
  · rcases resyncThenPrune_out hp with ⟨htx, -, -, -⟩ |
        ⟨-, hst, ⟨-, hw', hlog⟩ | ⟨-, hw', hlog⟩⟩
    · exact absurd htx (by simp [hf4])
    · rw [hlog] at ha
      refine ⟨by simp [hst], by simp [hw'], by simp [hw'], d, hd, ?_⟩
      simpa using ha
    · rw [hlog] at ha
      refine ⟨by simp [hst], by simp [hw'], by simp [hw'], d, hd, ?_⟩
      simpa using ha
  · obtain ⟨-, hrest⟩ := pruneStep_out hp
    rcases hrest with ⟨-, -, hlog⟩ | ⟨-, -, hlog⟩ <;>
      (rw [hlog] at hs; exact Option.noConfusion hs)
  · rcases resyncThenPrune_out hp with ⟨htx, -, -, -⟩ |
        ⟨-, hst, ⟨-, hw', hlog⟩ | ⟨-, hw', hlog⟩⟩
    · exact absurd htx (by simp [hf4])
    · rw [hlog] at ha
      refine ⟨by simp [hst], by simp [hw'], by simp [hw'], d, hd, ?_⟩
      simpa using ha
    · rw [hlog] at ha
      refine ⟨by simp [hst], by simp [hw'], by simp [hw'], d, hd, ?_⟩
      simpa using ha

/-- Cursor discipline of `work`: an invocation is inactive exactly when
the two period numbers coincide, in which case nothing at all changes;
an active invocation leaves the cursor at `now` no matter how the rest
of the period went. -/
theorem work_cursor {cfg : SBConfig} {f : Faults} {now : Nat}
    {st st' : SchedulerState} {w w' : World} {log : Outcome}
    (h : work (some cfg) true f now st w = .finished st' w' log) :
    (log.active = false ∧ st' = st ∧ w' = w ∧
      st.old_time_stamp / cfg.send_interval = now / cfg.send_interval) ∨
    (log.active = true ∧ st'.old_time_stamp = now ∧
      st.old_time_stamp / cfg.send_interval ≠ now / cfg.send_interval) := by
  rcases work_out h with ⟨heq, hst, hw', hlog⟩ | ⟨hne, hrest⟩
  · exact Or.inl ⟨by simp [hlog, noLog], hst, hw', heq⟩
  · rcases hrest with ⟨-, hst, -, hlog⟩ | ⟨-, -, hst, -, hlog⟩ |
        ⟨-, -, -, hst, -, hlog⟩ | ⟨dbh, -, -, -, hsub⟩
    · exact Or.inr ⟨by simp [hlog], by simp [hst], hne⟩
    · exact Or.inr ⟨by simp [hlog], by simp [hst], hne⟩
    · exact Or.inr ⟨by simp [hlog], by simp [hst], hne⟩
    · rcases hsub with ⟨-, -, hst, -, hlog⟩ | ⟨-, haf⟩
      · exact Or.inr ⟨by simp [hlog], by simp [hst], hne⟩
      · obtain ⟨hold, hact⟩ := afterFetch_old_active haf
        exact Or.inr ⟨hact, by simpa using hold, hne⟩

/-- Any height handed to `add` during a period is the successor of the
ledger height read fresh at the start of that period, and comes from
the header fetched at that height. -/
theorem work_attempt {cfg : SBConfig} {f : Faults} {now : Nat}
    {st st' : SchedulerState} {w w' : World} {log : Outcome} {hgt : Nat}
    (h : work (some cfg) true f now st w = .finished st' w' log)
    (ha : log.attempted = some hgt) :
    hgt = getLastHeight w.ledger + 1 ∧
    ∃ d, selectBlockByHeight w.db (getLastHeight w.ledger + 1) = some d ∧
      d.height = hgt := by
  rcases work_out h with ⟨-, -, -, hlog⟩ | ⟨-, hrest⟩
  · rw [hlog] at ha
    exact Option.noConfusion ha
  · rcases hrest with ⟨-, -, -, hlog⟩ | ⟨-, -, -, -, hlog⟩ |
        ⟨-, -, -, -, -, hlog⟩ | ⟨dbh, -, -, -, hsub⟩
    · rw [hlog] at ha; exact Option.noConfusion ha
    · rw [hlog] at ha; exact Option.noConfusion ha
    · rw [hlog] at ha; exact Option.noConfusion ha
    · rcases hsub with ⟨-, -, -, -, hlog⟩ | ⟨-, haf⟩
      · rw [hlog] at ha; exact Option.noConfusion ha
      · have hmap := afterFetch_attempt haf
        rw [ha] at hmap
        split at hmap
        · rcases hsel : selectBlockByHeight w.db (getLastHeight w.ledger + 1)
              with _ | d
          · rw [hsel] at hmap
            exact Option.noConfusion hmap
          · rw [hsel] at hmap
            have hd : d.height = hgt := by simpa using hmap.symm
            have hsel' := hsel
            simp only [selectBlockByHeight] at hsel'
            have hdh : d.height = getLastHeight w.ledger + 1 := by
              simpa using List.find?_some hsel'
            exact ⟨by omega, d, rfl, hd⟩
        · simp at hmap

/-- What one `work` invocation does to the ledger: nothing, or a single
accepted `add` at the successor of the fresh ledger height. -/
theorem work_ledger {cfg : SBConfig} {f : Faults} {now : Nat}
    {st st' : SchedulerState} {w w' : World} {log : Outcome}
    (h : work (some cfg) true f now st w = .finished st' w' log) :
    (log.submitted = none ∧ w'.ledger = w.ledger) ∨
    (log.submitted = some (w.ledger.lastHeight + 1) ∧
      w'.ledger.lastHeight = w.ledger.lastHeight + 1) := by
  rcases work_out h with ⟨-, -, hw', hlog⟩ | ⟨-, hrest⟩
  · exact Or.inl ⟨by simp [hlog, noLog], by simp [hw']⟩
  · rcases hrest with ⟨-, -, hw', hlog⟩ | ⟨-, -, -, hw', hlog⟩ |
        ⟨-, -, -, -, hw', hlog⟩ | ⟨dbh, -, -, -, hsub⟩
    · exact Or.inl ⟨by simp [hlog], by simp [hw']⟩
    · exact Or.inl ⟨by simp [hlog], by simp [hw']⟩
    · exact Or.inl ⟨by simp [hlog], by simp [hw']⟩
    · rcases hsub with ⟨-, -, -, hw', hlog⟩ | ⟨-, haf⟩
      · exact Or.inl ⟨by simp [hlog], by simp [hw']⟩
      · rcases afterFetch_ledger haf with ⟨hsub2, hled⟩ |
            ⟨d, ledger2, hd, hsub2, hadd, hled⟩
        · exact Or.inl ⟨hsub2, hled⟩
        · obtain ⟨-, hh, hs2⟩ := StorePurchase.add_ok_spec hadd
          refine Or.inr ⟨by rw [hsub2, hh], ?_⟩
          rw [hled, hs2]
          simpa using hh

/-- Across any run, the heights accepted by the ledger form the
contiguous ascending block `lastHeight+1, …, lastHeight+n`, and the
ledger's final height accounts for exactly those submissions. -/
theorem run_submitted (cfg : SBConfig) :
    ∀ (inputs : List PeriodInput) (st : SchedulerState) (w : World),
    ∃ n, (run cfg st w inputs).submitted =
        List.range' (w.ledger.lastHeight + 1) n ∧
      (run cfg st w inputs).w.ledger.lastHeight = w.ledger.lastHeight + n := by
  intro inputs
  induction inputs with
  | nil =>
    intro st w
    exact ⟨0, by simp [run], by simp [run]⟩
  | cons i rest ih =>
    intro st w
    simp only [run]
    rcases hwork : work (some cfg) true i.faults i.now st
        { w with db := w.db ++ i.newHeaders } with _ | ⟨st2, w2, log⟩
    · exact ⟨0, by simp, by simp⟩
    · obtain ⟨n2, hsub2, hlast2⟩ := ih st2 w2
      rcases work_ledger hwork with ⟨hnone, hled⟩ | ⟨hsome, hled⟩
      · refine ⟨n2, ?_, ?_⟩
        · simp [hnone, hsub2, hled]
        · simp [hlast2, hled]
      · refine ⟨n2 + 1, ?_, ?_⟩
        · rw [List.range'_succ]
          simp [hsome, hsub2, hled]
        · have : w2.ledger.lastHeight = w.ledger.lastHeight + 1 := by
            simpa using hled
          simp only [hlast2, this]
          omega

/-- C1: starting from a freshly initialized ledger (`lastHeight = 0`),
over every sequence of trigger ticks — with arbitrary fault injection
and arbitrary headers appearing in the Header Store between ticks — the
heights successfully submitted to the ledger are exactly `1, 2, …, N`
for some `N`, in that order (`List.range' 1 N`), with `N` the ledger's
final height; and within any single period, every height handed to
`add` is `ledgerLastHeight + 1` as read fresh that period (the single
`add` call site records at most one attempt per period). -/
theorem C1_monotonic_submission (cfg : SBConfig) (st : SchedulerState)
    (w : World) (inputs : List PeriodInput)
    (h0 : w.ledger.lastHeight = 0) :
    (∃ N, (run cfg st w inputs).submitted = List.range' 1 N ∧
      (run cfg st w inputs).w.ledger.lastHeight = N) ∧
    (∀ (f : Faults) (now : Nat) (st₁ st₁' : SchedulerState) (w₁ w₁' : World)
        (log : Outcome) (hgt : Nat),
      work (some cfg) true f now st₁ w₁ = .finished st₁' w₁' log →
      log.attempted = some hgt → hgt = getLastHeight w₁.ledger + 1) := by
  constructor
  · obtain ⟨n, hsub, hlast⟩ := run_submitted cfg inputs st w
    rw [h0] at hsub hlast
    exact ⟨n, by simpa using hsub, by simpa using hlast⟩
  · intro f now st₁ st₁' w₁ w₁' log hgt hw ha
    exact (work_attempt hw ha).1

/-- C1 witness: a concrete two-tick run from the fresh ledger. -/
theorem C1_monotonic_submission_witness :
    exWorld.ledger.lastHeight = 0 ∧
    ((∃ N, (run exCfg exState exWorld exInputs).submitted =
        List.range' 1 N ∧
      (run exCfg exState exWorld exInputs).w.ledger.lastHeight = N) ∧
    (∀ (f : Faults) (now : Nat) (st₁ st₁' : SchedulerState)
        (w₁ w₁' : World) (log : Outcome) (hgt : Nat),
      work (some exCfg) true f now st₁ w₁ = .finished st₁' w₁' log →
      log.attempted = some hgt → hgt = getLastHeight w₁.ledger + 1)) :=
  ⟨rfl, C1_monotonic_submission exCfg exState exWorld exInputs rfl⟩

/-- C2: with config and storage wired, every invocation of `work`
returns normally for every fault vector: an error anywhere in the
period is absorbed by a `catch` inside `work`, the hosting process is
never terminated, and the scheduler state needed by future periods is
handed back. -/
theorem C2_error_containment (cfg : SBConfig) (f : Faults) (now : Nat)
    (st : SchedulerState) (w : World) :
    work (some cfg) true f now st w ≠ .exited ∧
    ∃ st' w' log, work (some cfg) true f now st w = .finished st' w' log := by
  refine ⟨work_ne_exited cfg f now st w, ?_⟩
  rcases hwork : work (some cfg) true f now st w with _ | ⟨st', w', log⟩
  · exact absurd hwork (work_ne_exited cfg f now st w)
  · exact ⟨st', w', log, rfl⟩

/-- C3 (amended): in every active period in which the ledger-height
read and the store-height read succeed, the store is non-empty, and no
other store call or failure-path resynchronization read throws, the
Header Store ends the period with exactly the headers of height above
the `ledgerLastHeight` value read at the start of the period — whatever
the submission step did (`f.addNetworkFails` and the ledger state,
hence the `add` outcome, are arbitrary here).  The amendment is forced:
as `C3_prune_always_counterexample` shows, when the `add` call fails
and `getTransactionCount()` inside the `catch` handler then throws,
the exception reaches the outer `catch` and the pruning line of the
period never runs, so the original unconditional claim is false. -/
theorem C3_prune_always (cfg : SBConfig) (f : Faults) (now : Nat)
    (st st' : SchedulerState) (w w' : World) (log : Outcome)
    (hf1 : f.getLastHeightFails = false)
    (hf2 : f.selectLastHeightFails = false)
    (hf3 : f.selectBlockFails = false)
    (hf4 : f.getTxCountFails = false)
    (hf5 : f.deleteFails = false)
    (hw : work (some cfg) true f now st w = .finished st' w' log)
    (hactive : log.active = true)
    (hne : selectLastHeight w.db ≠ none) :
    w'.db = deleteBlockByHeight w.db (getLastHeight w.ledger) ∧
    log.prunedUpTo = some (getLastHeight w.ledger) ∧
    ∀ b : BlockHeader, b ∈ w.db → b.height ≤ getLastHeight w.ledger →
      b ∉ w'.db := by
  rcases work_out hw with ⟨-, -, -, hlog⟩ | ⟨-, hrest⟩
  · rw [hlog] at hactive
    exact absurd hactive (by simp [noLog])
  · rcases hrest with ⟨hglh, -, -, -⟩ | ⟨-, hslh, -, -, -⟩ |
        ⟨-, -, hsel, -, -, -⟩ | ⟨dbh, -, -, hsel, hsub⟩
    · exact absurd hglh (by simp [hf1])
    · exact absurd hslh (by simp [hf2])
    · exact absurd hsel hne
    · rcases hsub with ⟨-, hsbf, -, -, -⟩ | ⟨-, haf⟩
      · exact absurd hsbf (by simp [hf3])
      · obtain ⟨hdb, hpr⟩ := afterFetch_prune haf hf4 hf5
        refine ⟨hdb, hpr, ?_⟩
        intro b hb hble hbmem
        rw [hdb] at hbmem
        simp only [deleteBlockByHeight, List.mem_filter,
          decide_eq_true_eq] at hbmem
        omega

/-- C3 witness: a concrete fault-free period over the fresh ledger with
two pending headers; the period submits height 1 and prunes up to the
pre-read height 0. -/
theorem C3_prune_always_witness :
    ({ ledger := exLedger1, db := [exHeader1, exHeader2],
        txCount := 6 } : World).db =
      deleteBlockByHeight exWorld.db (getLastHeight exWorld.ledger) ∧
    (⟨true, some 1, some 1, some 0, false⟩ : Outcome).prunedUpTo =
      some (getLastHeight exWorld.ledger) ∧
    ∀ b : BlockHeader, b ∈ exWorld.db →
      b.height ≤ getLastHeight exWorld.ledger →
      b ∉ ({ ledger := exLedger1, db := [exHeader1, exHeader2],
             txCount := 6 } : World).db :=
  C3_prune_always exCfg exNoFaults 15 exState ⟨15, 10⟩ exWorld
    { ledger := exLedger1, db := [exHeader1, exHeader2], txCount := 6 }
    ⟨true, some 1, some 1, some 0, false⟩
    rfl rfl rfl rfl rfl (by rfl) rfl (by decide)

/-- C3 counterexample to the unamended claim: an active period, both
last-height reads succeed (those fault flags are off), the store is
non-empty — yet because the submission attempt fails and the
resynchronization read inside the failure handler throws, the period
ends with the store untouched: the confirmed header at height 1
(≤ the pre-read ledger height 1) is still stored, so nothing was
pruned. -/
theorem C3_prune_always_counterexample :
    exResyncFailFaults.getLastHeightFails = false ∧
    exResyncFailFaults.selectLastHeightFails = false ∧
    selectLastHeight exRetryWorld.db = some 2 ∧
    work (some exCfg) true exResyncFailFaults 15 exState exRetryWorld =
      .finished ⟨15, 9⟩ exRetryWorld ⟨true, some 2, none, none, true⟩ ∧
    exHeader1 ∈ exRetryWorld.db ∧
    exHeader1.height ≤ getLastHeight exRetryWorld.ledger := by
  refine ⟨rfl, rfl, by decide, by decide, by decide, by decide⟩

/-- C6: two invocations whose times fall in the same
`send_interval`-period produce at most one active synchronization
attempt — if the first was active the second is a no-op; and any active
invocation has already moved the cursor to its own `now` by the time it
returns, whatever faults the rest of the period hit. -/
theorem C6_period_collapsing (cfg : SBConfig) (f1 f2 : Faults)
    (t1 t2 : Nat) (st st1 st2 : SchedulerState) (w w1 w2 : World)
    (log1 log2 : Outcome)
    (h1 : work (some cfg) true f1 t1 st w = .finished st1 w1 log1)
    (h2 : work (some cfg) true f2 t2 st1 w1 = .finished st2 w2 log2)
    (hsame : t1 / cfg.send_interval = t2 / cfg.send_interval) :
    (log1.active = false ∨ log2.active = false) ∧
    (log1.active = true → st1.old_time_stamp = t1) ∧
    (log2.active = true → st2.old_time_stamp = t2) := by
  have hcur1 := work_cursor h1
  have hcur2 := work_cursor h2
  refine ⟨?_, ?_, ?_⟩
  · rcases hcur1 with ⟨hf, -, -, -⟩ | ⟨-, hc1, -⟩
    · exact Or.inl hf
    · rcases hcur2 with ⟨hf2, -, -, -⟩ | ⟨-, -, hne2⟩
      · exact Or.inr hf2
      · exact absurd (by rw [hc1]; exact hsame) hne2
  · intro hA
    rcases hcur1 with ⟨hf, -, -, -⟩ | ⟨-, hc1, -⟩
    · rw [hf] at hA
      exact absurd hA (by simp)
    · exact hc1
  · intro hA
    rcases hcur2 with ⟨hf, -, -, -⟩ | ⟨-, hc2, -⟩
    · rw [hf] at hA
      exact absurd hA (by simp)
    · exact hc2

/-- C6 witness: ticks at 15 and 18 with a ten-second interval — the
first is active and sets the cursor to 15, the second is a no-op. -/
theorem C6_period_collapsing_witness :
    ((⟨true, none, none, none, false⟩ : Outcome).active = false ∨
      noLog.active = false) ∧
    ((⟨true, none, none, none, false⟩ : Outcome).active = true →
      (⟨15, 9⟩ : SchedulerState).old_time_stamp = 15) ∧
    (noLog.active = true → (⟨15, 9⟩ : SchedulerState).old_time_stamp = 18) :=
  C6_period_collapsing exCfg exNoFaults exNoFaults 15 18 exState
    ⟨15, 9⟩ ⟨15, 9⟩ exEmptyWorld exEmptyWorld exEmptyWorld
    ⟨true, none, none, none, false⟩ noLog (by rfl) (by rfl) rfl

/-- C7: an active period that reads a store height not above the ledger
height makes no `add` call, leaves the ledger untouched, and changes
the Header Store only by deleting the already-confirmed headers (height
at most the pre-read ledger height). -/
theorem C7_noop_period (cfg : SBConfig) (f : Faults) (now : Nat)
    (st st' : SchedulerState) (w w' : World) (log : Outcome) (dbh : Nat)
    (hf1 : f.getLastHeightFails = false)
    (hf2 : f.selectLastHeightFails = false)
    (hf5 : f.deleteFails = false)
    (hw : work (some cfg) true f now st w = .finished st' w' log)
    (hactive : log.active = true)
    (hsel : selectLastHeight w.db = some dbh)
    (hle : dbh ≤ getLastHeight w.ledger) :
    log.attempted = none ∧ log.submitted = none ∧ w'.ledger = w.ledger ∧
    w'.db = deleteBlockByHeight w.db (getLastHeight w.ledger) := by
  rcases work_out hw with ⟨-, -, -, hlog⟩ | ⟨-, hrest⟩
  · rw [hlog] at hactive
    exact absurd hactive (by simp [noLog])
  · rcases hrest with ⟨hglh, -, -, -⟩ | ⟨-, hslh, -, -, -⟩ |
        ⟨-, -, hsel0, -, -, -⟩ | ⟨dbh0, -, -, hsel0, hsub⟩
    · exact absurd hglh (by simp [hf1])
    · exact absurd hslh (by simp [hf2])
    · rw [hsel0] at hsel
      exact Option.noConfusion hsel
    · rw [hsel0] at hsel
      have hdbh : dbh0 = dbh := by simpa using hsel
      subst hdbh
      rcases hsub with ⟨hlt, -, -, -, -⟩ | ⟨-, haf⟩
      · omega
      · rw [if_neg (by omega)] at haf
        rcases afterFetch_out haf with ⟨-, hp⟩ | ⟨d, hd, -, -⟩ |
            ⟨d, l2, hd, -, -, -⟩ | ⟨d, e, hd, -, -, -⟩
        · obtain ⟨-, hrest2⟩ := pruneStep_out hp
          rcases hrest2 with ⟨-, hw', hlog⟩ | ⟨hdel, -, -⟩
          · exact ⟨by simp [hlog], by simp [hlog], by simp [hw'],
              by simp [hw']⟩
          · exact absurd hdel (by simp [hf5])
        · exact Option.noConfusion hd
        · exact Option.noConfusion hd
        · exact Option.noConfusion hd

/-- C7 witness: the ledger already holds the only stored header
(both heights are 1); the period attempts nothing and clears the
store. -/
theorem C7_noop_period_witness :
    (⟨true, none, none, some 1, false⟩ : Outcome).attempted = none ∧
    (⟨true, none, none, some 1, false⟩ : Outcome).submitted = none ∧
    ({ ledger := exLedger1, db := [], txCount := 5 } : World).ledger =
      exCaughtUpWorld.ledger ∧
    ({ ledger := exLedger1, db := [], txCount := 5 } : World).db =
      deleteBlockByHeight exCaughtUpWorld.db
        (getLastHeight exCaughtUpWorld.ledger) :=
  C7_noop_period exCfg exNoFaults 15 exState ⟨15, 9⟩ exCaughtUpWorld
    { ledger := exLedger1, db := [], txCount := 5 }
    ⟨true, none, none, some 1, false⟩ 1
    rfl rfl rfl (by rfl) rfl (by decide) (by decide)

/-- C8: when the single `add` call of a period fails (an attempt was
logged but nothing was submitted), the period overwrites the writer
credential's sequence counter with the network's authoritative
outstanding-transaction count, leaves the ledger where it was, and the
fetched header — the one at the successor of the pre-read ledger
height — is still in the Header Store after the period's pruning, so a
later period can retry it.  (`Outcome.attempted` records every `add`
call of the period; its single optional value is the fact that the
failed submission is not retried within the period.) -/
theorem C8_failure_resync (cfg : SBConfig) (f : Faults) (now : Nat)
    (st st' : SchedulerState) (w w' : World) (log : Outcome) (hgt : Nat)
    (hf4 : f.getTxCountFails = false)
    (hw : work (some cfg) true f now st w = .finished st' w' log)
    (hatt : log.attempted = some hgt)
    (hfail : log.submitted = none) :
    st'.nonce = w.txCount ∧ w'.ledger = w.ledger ∧
    hgt = getLastHeight w.ledger + 1 ∧
    ∃ d, selectBlockByHeight w.db (getLastHeight w.ledger + 1) = some d ∧
      d.height = hgt ∧ d ∈ w'.db := by
  obtain ⟨hhgt, d0, hsel0, hd0⟩ := work_attempt hw hatt
  have hmem : d0 ∈ w.db := by
    have hsel' := hsel0
    simp only [selectBlockByHeight] at hsel'
    exact List.mem_of_find?_eq_some hsel'
  rcases work_out hw with ⟨-, -, -, hlog⟩ | ⟨-, hrest⟩
  · rw [hlog] at hatt
    exact absurd hatt (by simp [noLog])
  · rcases hrest with ⟨-, -, -, hlog⟩ | ⟨-, -, -, -, hlog⟩ |
        ⟨-, -, -, -, -, hlog⟩ | ⟨dbh, -, -, hsel, hsub⟩
    · rw [hlog] at hatt; exact Option.noConfusion hatt
    · rw [hlog] at hatt; exact Option.noConfusion hatt
    · rw [hlog] at hatt; exact Option.noConfusion hatt
    · rcases hsub with ⟨-, -, -, -, hlog⟩ | ⟨-, haf⟩
      · rw [hlog] at hatt; exact Option.noConfusion hatt
      · obtain ⟨hnonce, hled, htx, d, hd, hdh⟩ :=
          afterFetch_fail haf hatt hfail hf4
        refine ⟨by simpa using hnonce, hled, hhgt, d0, hsel0, hd0, ?_⟩
        rcases afterFetch_db haf with hdb | hdb
        · rw [hdb]
          exact hmem
        · rw [hdb]
          simp only [deleteBlockByHeight, List.mem_filter,
            decide_eq_true_eq]
          exact ⟨hmem, by omega⟩

/-- C8 witness: the period whose `add` network call throws; the stale
counter 9 is overwritten with the authoritative count 5 and the header
at height 1 survives the pruning. -/
theorem C8_failure_resync_witness :
    (⟨15, 5⟩ : SchedulerState).nonce = exWorld.txCount ∧
    ({ ledger := initContract 7, db := [exHeader1, exHeader2],
        txCount := 5 } : World).ledger = exWorld.ledger ∧
    1 = getLastHeight exWorld.ledger + 1 ∧
    (∃ d, selectBlockByHeight exWorld.db
        (getLastHeight exWorld.ledger + 1) = some d ∧
      d.height = 1 ∧
      d ∈ ({ ledger := initContract 7, db := [exHeader1, exHeader2],
             txCount := 5 } : World).db) :=
  C8_failure_resync exCfg exAddFailFaults 15 exState ⟨15, 5⟩ exWorld
    { ledger := initContract 7, db := [exHeader1, exHeader2], txCount := 5 }
    ⟨true, some 1, none, some 0, false⟩ 1
    rfl (by rfl) rfl rfl

/-- C9: a freshly initialized ledger holds exactly the genesis entry —
height 0, all-zero hashes — and reports last height 0; and any
submission attempt a period makes against it targets height 1, i.e.
`ledgerLastHeight + 1`. -/
theorem C9_genesis (owner : Nat) (cfg : SBConfig) (f : Faults) (now : Nat)
    (st st' : SchedulerState) (w w' : World) (log : Outcome) (hgt : Nat)
    (hinit : w.ledger = initContract owner)
    (hw : work (some cfg) true f now st w = .finished st' w' log)
    (hatt : log.attempted = some hgt) :
    w.ledger.blockArray = [genesisHeader] ∧
    genesisHeader.height = 0 ∧ genesisHeader.curBlock = 0 ∧
    genesisHeader.prevBlock = 0 ∧ genesisHeader.merkleRoot = 0 ∧
    getLastHeight w.ledger = 0 ∧ hgt = 1 := by
  have hlast : getLastHeight w.ledger = 0 := by rw [hinit]; rfl
  have hsucc := (work_attempt hw hatt).1
  exact ⟨by rw [hinit]; rfl, rfl, rfl, rfl, rfl, hlast, by omega⟩

/-- C9 witness: the fault-free period over the fresh ledger attempts
exactly height 1. -/
theorem C9_genesis_witness :
    exWorld.ledger.blockArray = [genesisHeader] ∧
    genesisHeader.height = 0 ∧ genesisHeader.curBlock = 0 ∧
    genesisHeader.prevBlock = 0 ∧ genesisHeader.merkleRoot = 0 ∧
    getLastHeight exWorld.ledger = 0 ∧ (1 : Nat) = 1 :=
  C9_genesis 7 exCfg exNoFaults 15 exState ⟨15, 10⟩ exWorld
    { ledger := exLedger1, db := [exHeader1, exHeader2], txCount := 6 }
    ⟨true, some 1, some 1, some 0, false⟩ 1 rfl (by rfl) rfl

end SendBlock
